import Mathlib

/-!
Verification of the lite-hmrc mail interchange core.

This file gives a shallow embedding, in Lean, of the parts of the
lite-hmrc repository that the checked properties talk about:

* `mail/libraries/builders.py` — the flat-file codec
  (`build_sent_filename`, `build_sent_file_data`,
  `build_licence_data_file`, `build_licence_data_mail`) and the outbound
  message assembler (`build_email_message`, `_validate_dto`);
* `mail/libraries/mailbox_service.py` — the inbound deduplication ledger
  (`get_message_id`, `get_read_messages`, `get_message_iterator`);
* `mail/tasks.py` — the single-flight guard
  (`send_licence_data_to_hmrc`, `_get_pending_mail`), the usage-data
  retry scheduler (`schedule_licence_usage_figures_for_lite_api`,
  `_handle_exception`, `schedule_max_tried_task_as_new_task`) and
  `save_response`.

Python strings are modelled as `List Char` (a Python `str` is a sequence
of Unicode code points).  Python's `s.split(sep)` for a one-character
separator is `List.splitOn sep`, and `sep.join(parts)` is
`List.intercalate [sep] parts`; both agree with the Python semantics on
empty strings (`"".split(c) == [""]`).  Fallible operations (Python code
that can raise `IndexError` / `TypeError`) return `Option` / `Except`.
Database tables are modelled as lists of records and the Django ORM
calls as explicit list operations.
-/

/-! ## String utilities shared by the embedding -/

/-- Decimal digit character for one digit, `0 ≤ d ≤ 9` (fallback is never
reached on digits produced by division/modulo by ten). -/
def digitChar (d : Nat) : Char := "0123456789".data.getD d '*'

/-- Auxiliary decimal printer; the first argument is fuel, which is always
sufficient when it starts at `n` itself. -/
def natToCharsAux : Nat → Nat → List Char
  | 0, _ => []
  | _ + 1, 0 => []
  | fuel + 1, n + 1 => natToCharsAux fuel ((n + 1) / 10) ++ [digitChar ((n + 1) % 10)]

/-- Decimal rendering of a natural number, modelling Python `str(n)` for a
non-negative `int`. -/
def natToChars (n : Nat) : List Char :=
  if n = 0 then ['0'] else natToCharsAux n n

/-- Zero padding to a given width, modelling the Python format spec `0Nd`
applied to a non-negative `int`. -/
def padZeros (width : Nat) (s : List Char) : List Char :=
  List.replicate (width - s.length) '0' ++ s

/-- Strip spaces (the exact character `' '`, as in Python `strip(" ")`) from
both ends of a string. -/
def stripSpaces (s : List Char) : List Char :=
  ((s.dropWhile (· = ' ')).reverse.dropWhile (· = ' ')).reverse

/-- Split on runs of whitespace discarding empty pieces, modelling Python
`str.split()` with no argument. -/
def pythonWhitespaceSplit (s : List Char) : List (List Char) :=
  (s.splitOnP (fun c => c = ' ' ∨ c = '\t' ∨ c = '\n' ∨ c = '\r')).filter (· ≠ [])

/-! ## Flat-file codec (`mail/libraries/builders.py`) -/

/-- Embedding of `build_sent_filename`: the filename is split on
underscores, the field at index 4 is replaced by the decimal run number
and the fields are rejoined.  Python raises `IndexError` on the
assignment `filename[4] = str(run_number)` when there are fewer than
five fields; that failure is `none` here. -/
def build_sent_filename (filename : List Char) (run_number : Nat) : Option (List Char) :=
  let fields := filename.splitOn '_'
  if 5 ≤ fields.length then
    some (['_'].intercalate (fields.set 4 (natToChars run_number)))
  else none

/-- Embedding of `build_sent_file_data`: the content is split at the
first newline (Python `split("\n", 1)`), the first line is split on
backslashes, its field at index 6 is replaced by the decimal run number,
and the pieces are rejoined.  Python raises `IndexError` either on
`file_data_line_1[6]` (fewer than seven fields) or on
`file_data_lines[1]` (no newline in the input); both failures are `none`
here. -/
def build_sent_file_data (file_data : List Char) (run_number : Nat) : Option (List Char) :=
  match file_data.splitOn '\n' with
  | [] => none
  | line1 :: rest =>
    let fields := line1.splitOn '\\'
    if 7 ≤ fields.length then
      match rest with
      | [] => none
      | _ :: _ =>
        some (['\\'].intercalate (fields.set 6 (natToChars run_number)) ++
          '\n' :: ['\n'].intercalate rest)
    else none

/-- The wall-clock fields `timezone.now()` contributes to the licence
data filename. -/
structure FileTimestamp where
  year : Nat
  month : Nat
  day : Nat
  hour : Nat
  minute : Nat
deriving DecidableEq, Repr

/-- Embedding of the filename computation of `build_licence_data_file`:
the template `CHIEF_LIVE_SPIRE_licenceData_{}_{:04d}{:02d}{:02d}{:02d}{:02d}`
applied to the run number and the current timestamp. -/
def build_licence_data_file_name (run_number : Nat) (now : FileTimestamp) : List Char :=
  "CHIEF_LIVE_SPIRE_licenceData_".data ++ natToChars run_number ++ '_' ::
    (padZeros 4 (natToChars now.year) ++ padZeros 2 (natToChars now.month) ++
     padZeros 2 (natToChars now.day) ++ padZeros 2 (natToChars now.hour) ++
     padZeros 2 (natToChars now.minute))

/-- Embedding of the run-number choice in `build_licence_data_mail`:
`LicenceData.objects.last()` over the stored rows (in insertion order),
then `hmrc_run_number + 1` when a row exists and `1` otherwise. -/
def next_hmrc_run_number (history : List Nat) : Nat :=
  match history.getLast? with
  | some r => r + 1
  | none => 1

/-! ## Domain records and the licence-update task (`mail/tasks.py`) -/

/-- Lifecycle states of a `Mail` batch, from `ReceptionStatusEnum`
(the enum module is not among the provided sources; the spec's
`AwaitingReply` state is `reply_pending` here, and `reply_sent` is the
terminal state the guard tests for). -/
inductive ReceptionStatus where
  | pending
  | reply_pending
  | reply_received
  | reply_sent
deriving DecidableEq, Repr

/-- Batch kinds, from `ExtractTypeEnum`. -/
inductive ExtractType where
  | licence_data
  | licence_reply
  | usage_data
deriving DecidableEq, Repr

/-- A row of the `Mail` table, restricted to the fields the tasks under
study read or write. -/
structure MailRec where
  mail_id : Nat
  status : ReceptionStatus
  extract_type : ExtractType
  edi_filename : List Char
  edi_data : List Char
  sent_filename : Option (List Char)
  sent_data : Option (List Char)
deriving DecidableEq, Repr

/-- A row of the `LicenceData` table (the per-batch run-number record). -/
structure LicenceDataRec where
  hmrc_run_number : Nat
  mail_id : Nat
  licence_refs : List (List Char)
deriving DecidableEq, Repr

/-- A row of the `LicencePayload` table (a licence change not yet sent). -/
structure LicencePayloadRec where
  reference : List Char
  is_processed : Bool
  skip : Bool
deriving DecidableEq, Repr

/-- The database state `send_licence_data_to_hmrc` reads and writes. -/
structure HmrcState where
  mails : List MailRec
  licence_data : List LicenceDataRec
  payloads : List LicencePayloadRec
deriving DecidableEq, Repr

/-- Embedding of `_get_pending_mail`:
`Mail.objects.exclude(status=ReceptionStatusEnum.REPLY_SENT)`, giving
the ids of every batch outside the terminal state. -/
def _get_pending_mail (s : HmrcState) : List Nat :=
  (s.mails.filter (fun m => decide (m.status ≠ ReceptionStatus.reply_sent))).map (·.mail_id)

/-- Embedding of `_is_email_slot_free`: true exactly when no pending
batch exists. -/
def _is_email_slot_free (s : HmrcState) : Bool :=
  (_get_pending_mail s).isEmpty

/-- Embedding of `build_licence_data_mail`: creates the `Mail` row
(filename from `build_licence_data_file`, content from
`licences_to_edifact` — the converter module is not among the provided
sources, so it is passed in as the function `edifact`) and the
`LicenceData` row carrying the freshly assigned hmrc run number.  The
new mail id models the fresh primary key. -/
def build_licence_data_mail (edifact : List LicencePayloadRec → Nat → List Char)
    (now : FileTimestamp) (licences : List LicencePayloadRec) (s : HmrcState) :
    HmrcState × MailRec :=
  let run_number := next_hmrc_run_number (s.licence_data.map (·.hmrc_run_number))
  let file_name := build_licence_data_file_name run_number now
  let file_content := edifact licences run_number
  let mail : MailRec :=
    ⟨s.mails.length, ReceptionStatus.pending, ExtractType.licence_data,
      file_name, file_content, none, none⟩
  let ld : LicenceDataRec := ⟨run_number, mail.mail_id, licences.map (·.reference)⟩
  ({ s with mails := s.mails ++ [mail], licence_data := s.licence_data ++ [ld] }, mail)

/-- Modelled from the spec: `update_mail` of
`mail/libraries/routing_controller.py` is not among the provided
sources.  Per the spec (§4.3) a newly built outbound licence-update
batch starts in the `AwaitingReply` (`reply_pending`) state once handed
to the transport, and the transmitted filename/content pair is recorded
on the batch. -/
def update_mail (s : HmrcState) (mail_id : Nat) (sent_f sent_d : List Char) : HmrcState :=
  { s with
    mails := s.mails.map (fun m =>
      if m.mail_id = mail_id then
        { m with status := ReceptionStatus.reply_pending,
                 sent_filename := some sent_f, sent_data := some sent_d }
      else m) }

/-- Embedding of `send_licence_data_to_hmrc`: the single-flight guard,
then (inside one transaction) selection of the unprocessed, unskipped
licence payloads, batch building, dto construction
(`build_request_mail_message_dto` stamps the filename and content with
the batch's run number), sending, `update_mail`, and marking the
payloads processed.  An exception inside the transaction (modelled by
the stamping operations failing) rolls every mutation back and is only
logged, so the state is returned unchanged. -/
def send_licence_data_to_hmrc (edifact : List LicencePayloadRec → Nat → List Char)
    (now : FileTimestamp) (s : HmrcState) : HmrcState :=
  if !(_is_email_slot_free s) then s
  else
    let licences := s.payloads.filter (fun p => decide (p.is_processed = false ∧ p.skip = false))
    if licences.isEmpty then s
    else
      let built := build_licence_data_mail edifact now licences s
      let run_number := next_hmrc_run_number (s.licence_data.map (·.hmrc_run_number))
      match build_sent_filename built.2.edi_filename run_number,
            build_sent_file_data built.2.edi_data run_number with
      | some sent_f, some sent_d =>
        let s2 := update_mail built.1 built.2.mail_id sent_f sent_d
        { s2 with
          payloads := s2.payloads.map (fun p =>
            if p.is_processed = false ∧ p.skip = false then { p with is_processed := true }
            else p) }
      | _, _ => s

/-! ## Usage-data retry scheduler (`mail/tasks.py`) -/

/-- A row of the background task table, restricted to the fields the
scheduler reads: the queue name, the serialized parameters, the attempt
counter and the schedule delay in seconds. -/
structure TaskRec where
  queue : List Char
  params : List Char
  attempts : Nat
  delay_seconds : Nat
deriving DecidableEq, Repr

/-- Queue name constant from `mail/tasks.py`. -/
def USAGE_FIGURES_QUEUE : List Char := "usage_figures_queue".data

/-- Backoff constant from `mail/tasks.py` (seconds to wait before
scheduling a new task once `MAX_ATTEMPTS` is reached). -/
def TASK_BACK_OFF : Nat := 3600

/-- The serialized task parameters for one usage-data id, the Python
f-string rendering to the JSON text of `[[id], dict()]`. -/
def task_params_for (uid : List Char) : List Char :=
  "[[\"".data ++ uid ++ "\"], \x7b\x7d]".data

/-- Embedding of `schedule_licence_usage_figures_for_lite_api`: when a
task with this usage-data id's parameters is already queued, nothing is
enqueued; otherwise the background task is created with a fresh attempt
counter and no delay. -/
def schedule_licence_usage_figures_for_lite_api (tasks : List TaskRec) (uid : List Char) :
    List TaskRec :=
  if ∃ t ∈ tasks, t.queue = USAGE_FIGURES_QUEUE ∧ t.params = task_params_for uid then tasks
  else tasks ++ [⟨USAGE_FIGURES_QUEUE, task_params_for uid, 0, 0⟩]

/-- Embedding of `schedule_max_tried_task_as_new_task`: a new task
instance for the same usage-data id, starting from `attempts = 0`,
scheduled `TASK_BACK_OFF` seconds ahead. -/
def schedule_max_tried_task_as_new_task (tasks : List TaskRec) (uid : List Char) :
    List TaskRec :=
  tasks ++ [⟨USAGE_FIGURES_QUEUE, task_params_for uid, 0, TASK_BACK_OFF⟩]

/-- Embedding of the scheduling effect of `_handle_exception`: the task
row for this usage-data id is looked up; when it is missing the failure
is only logged, and when its current attempt (`attempts + 1`) has
reached `MAX_ATTEMPTS` a new task lineage is scheduled via
`schedule_max_tried_task_as_new_task`.  The Python function then raises
so the runner marks the current task failed (and retries it while
attempts remain); that exception carries no state change. -/
def _handle_exception (max_attempts : Nat) (tasks : List TaskRec) (uid : List Char) :
    List TaskRec :=
  match tasks.find? (fun t =>
      decide (t.queue = USAGE_FIGURES_QUEUE ∧ t.params = task_params_for uid)) with
  | none => tasks
  | some task =>
    if max_attempts ≤ task.attempts + 1 then schedule_max_tried_task_as_new_task tasks uid
    else tasks

/-- A row of the `UsageData` table, restricted to the fields
`save_response` writes, plus its associated `Mail` row. -/
structure UsageDataRec where
  lite_accepted_licences : List (List Char)
  lite_rejected_licences : List (List Char)
  lite_sent_at : Option Nat
  lite_response : Option (List Char)
  has_spire_data : Bool
  mail : MailRec
deriving DecidableEq, Repr

/-- Embedding of `save_response`: the accepted/rejected lists, the sent
timestamp and the upstream response are recorded unconditionally; the
associated mail's status moves to `REPLY_RECEIVED` only when the batch
has no SPIRE data. -/
def save_response (lite_usage_data : UsageDataRec) (accepted rejected : List (List Char))
    (response : List Char) (now : Nat) : UsageDataRec :=
  let ud := { lite_usage_data with
    lite_accepted_licences := accepted,
    lite_rejected_licences := rejected,
    lite_sent_at := some now,
    lite_response := some response }
  if lite_usage_data.has_spire_data then ud
  else { ud with mail := { ud.mail with status := ReceptionStatus.reply_received } }

/-! ## Inbound deduplication ledger (`mail/libraries/mailbox_service.py`) -/

/-- The email DTO produced by `to_mail_message_dto` and consumed by the
outbound assembler (`EmailMessageDto` namedtuple). -/
structure EmailMessageDto where
  run_number : Nat
  sender : List Char
  receiver : List Char
  date : List Char
  body : Option (List Char)
  subject : List Char
  attachment : Option (List Char × List Char)
  raw_data : List Char
deriving DecidableEq, Repr

/-- Statuses of the `MailReadStatus` ledger (from `MailReadStatuses`;
the enum module is not among the provided sources — per the spec a row
starts in an implicit non-final state, called `unread` here, and the
final states are `read` and `unprocessable`). -/
inductive MailReadStatus where
  | unread
  | read
  | unprocessable
deriving DecidableEq, Repr

/-- A row of the per-mailbox deduplication ledger (one mailbox is
modelled, matching polls of a single `MailboxConfig`). -/
structure MailReadStatusRow where
  message_id : List Char
  message_num : List Char
  status : MailReadStatus
deriving DecidableEq, Repr

/-- Embedding of `get_read_messages`: the message ids of every ledger
row whose status is `READ` or `UNPROCESSABLE`. -/
def get_read_messages (ledger : List MailReadStatusRow) : List (List Char) :=
  (ledger.filter (fun r =>
    decide (r.status = MailReadStatus.read ∨ r.status = MailReadStatus.unprocessable))).map
    (·.message_id)

/-- Embedding of the `Message-ID` header scan in `get_message_id`: each
raw header line is split on single spaces; a two-field `Message-ID:`
line carries the value inline, a one-field `Message-ID:` line takes the
value from the following raw line (Python reads `msg_header[1][index + 1]`
and raises `IndexError` when there is no following line, which is the
`none` result).  Angle brackets are removed, the continuation form is
stripped of spaces, and the identifier is the part before `@`.  Later
matches overwrite earlier ones, as in the Python loop. -/
def scan_message_id (acc : Option (List Char)) : List (List Char) → Option (Option (List Char))
  | [] => some acc
  | line :: rest =>
    match line.splitOn ' ' with
    | [f0, f1] =>
      if f0 = "Message-ID:".data then
        scan_message_id
          (some (((f1.filter (fun c => decide (c ≠ '<' ∧ c ≠ '>'))).splitOn '@').headD []))
          rest
      else scan_message_id acc rest
    | [f0] =>
      if f0 = "Message-ID:".data then
        match rest with
        | [] => none
        | nxt :: _ =>
          scan_message_id
            (some (((stripSpaces (nxt.filter (fun c =>
              decide (c ≠ '<' ∧ c ≠ '>')))).splitOn '@').headD []))
            rest
      else scan_message_id acc rest
    | _ => scan_message_id acc rest

/-- Embedding of `get_message_id`.  The message number is the first
whitespace-separated token of the LIST line (Python `split()[0]`,
`IndexError` — `none` — on an empty line).  When no raw header line
equals the configured trusted sender bytes (`SPIRE_FROM_ADDRESS`, a
setting), the function returns immediately with no identifier; otherwise
the header lines are scanned for the `Message-ID`. -/
def get_message_id (spire_from_address : List Char) (listing_msg : List Char)
    (header_lines : List (List Char)) : Option (Option (List Char) × List Char) :=
  match (pythonWhitespaceSplit listing_msg).head? with
  | none => none
  | some msg_num =>
    if spire_from_address ∉ header_lines then some (none, msg_num)
    else
      match scan_message_id none header_lines with
      | none => none
      | some mid => some (mid, msg_num)

/-- What the POP3 transport does for one listed message during one poll:
the identity `get_message_id` derives for it (none for untrusted
senders), its protocol-level message number, and the outcome of
fetching it (`RETR` failing, `to_mail_message_dto` failing, or a parsed
DTO). -/
inductive FetchOutcome where
  | transportError
  | parseFailure
  | parsed (dto : EmailMessageDto)
deriving DecidableEq, Repr

/-- One entry of the mailbox listing as seen by `get_message_iterator`. -/
structure PopListingEntry where
  message_id : Option (List Char)
  message_num : List Char
  fetch : FetchOutcome
deriving DecidableEq, Repr

/-- Ledger lookup used by `get_or_create`: the first row matching the
message id and message number. -/
def find_row (ledger : List MailReadStatusRow) (mid num : List Char) :
    Option MailReadStatusRow :=
  ledger.find? (fun r => decide (r.message_id = mid ∧ r.message_num = num))

/-- Embedding of the `mark_status` closure's `save()`: update the status
of the first row matching the message id and message number. -/
def set_row_status : List MailReadStatusRow → List Char → List Char → MailReadStatus →
    List MailReadStatusRow
  | [], _, _, _ => []
  | r :: rs, mid, num, st =>
    if r.message_id = mid ∧ r.message_num = num then { r with status := st } :: rs
    else r :: set_row_status rs mid num st

/-- One iteration of the loop in `get_message_iterator` for one listing
entry: untrusted entries (no identifier) are passed over; identifiers in
the `read_messages` snapshot are excluded; otherwise the ledger row is
created if absent (`get_or_create`, initially `unread`), a `RETR`
failure skips the entry leaving the row as it is, a parse failure marks
the row `UNPROCESSABLE`, and a parsed message is yielded — `consume`
models what the caller then does with the yielded `mark_status`
closure (marking some status, or not marking at all). -/
def process_message (consume : EmailMessageDto → Option MailReadStatus)
    (read_messages : List (List Char)) (ledger : List MailReadStatusRow)
    (msg : PopListingEntry) : List MailReadStatusRow × Option (List Char) :=
  match msg.message_id with
  | none => (ledger, none)
  | some mid =>
    if mid ∈ read_messages then (ledger, none)
    else
      let ledger1 :=
        if (find_row ledger mid msg.message_num).isSome then ledger
        else ledger ++ [⟨mid, msg.message_num, MailReadStatus.unread⟩]
      match msg.fetch with
      | FetchOutcome.transportError => (ledger1, none)
      | FetchOutcome.parseFailure =>
        (set_row_status ledger1 mid msg.message_num MailReadStatus.unprocessable, none)
      | FetchOutcome.parsed dto =>
        match consume dto with
        | some st => (set_row_status ledger1 mid msg.message_num st, some mid)
        | none => (ledger1, some mid)

/-- The for-loop of `get_message_iterator`: the listing entries are
processed in order against the fixed `read_messages` snapshot,
threading the ledger and accumulating the yielded identifiers. -/
def iterate_messages (consume : EmailMessageDto → Option MailReadStatus)
    (read_messages : List (List Char))
    (acc : List MailReadStatusRow × List (List Char)) :
    List PopListingEntry → List MailReadStatusRow × List (List Char)
  | [] => acc
  | msg :: msgs =>
    let r := process_message consume read_messages acc.1 msg
    iterate_messages consume read_messages (r.1, acc.2 ++ r.2.toList) msgs

/-- Embedding of one full drive of `get_message_iterator` over a
mailbox listing: the `read_messages` snapshot is taken once from the
ledger, then the listing entries are processed in order; the result is
the final ledger and the identifiers of the yielded messages. -/
def get_message_iterator (consume : EmailMessageDto → Option MailReadStatus)
    (ledger : List MailReadStatusRow) (msgs : List PopListingEntry) :
    List MailReadStatusRow × List (List Char) :=
  iterate_messages consume (get_read_messages ledger) (ledger, []) msgs

/-- The ledger rows carrying one message identifier, in order; the frame
results below are phrased as preservation of this projection. -/
def rows_for (mid : List Char) (ledger : List MailReadStatusRow) : List MailReadStatusRow :=
  ledger.filter (fun r => decide (r.message_id = mid))

/-! ## Outbound message assembler (`mail/libraries/builders.py`) -/

/-- One MIME part: its headers in order and its payload. -/
structure MimePart where
  headers : List (List Char × List Char)
  body : List Char
deriving DecidableEq, Repr

/-- A multipart message: its top-level headers in order and its parts. -/
structure MimeMultipartMsg where
  headers : List (List Char × List Char)
  parts : List MimePart
deriving DecidableEq, Repr

/-- Model of the third-party `unidecode` transliteration with
`errors="replace"`, restricted to ASCII — which unidecode passes through
unchanged — and the non-ASCII code points exercised by this repository's
test fixture and the spec scenario; the listed images are the ones the
unidecode data tables contain for these code points.  Any other
character takes the `errors="replace"` placeholder. -/
def unidecodeChar (c : Char) : List Char :=
  if c.toNat < 128 then [c]
  else if c = Char.ofNat 0x1d5c4 then ['k']
  else if c = Char.ofNat 0x1d5c6 then ['m']
  else if c = Char.ofNat 0x1d5c1 then ['h']
  else if c = Char.ofNat 0x1d5d1 then ['x']
  else if c = Char.ofNat 0x5317 then "Bei ".data
  else if c = Char.ofNat 0x4eac then "Jing ".data
  else if c = Char.ofNat 0x4eb0 then "Jing ".data
  else ['?']

/-- Transliteration of a whole string, character by character. -/
def unidecode (s : List Char) : List Char :=
  s.foldr (fun c acc => unidecodeChar c ++ acc) []

/-- Embedding of `build_email_message` (with `_validate_dto` inlined as
the two leading error cases).  `email_user` is the configured
`EMAIL_USER` setting: the `From` header is always this fixed identity,
never the DTO's sender — the SMTP server only allows sending as itself.
The first part is the empty `iso-8859-1` plaintext preamble; the second
carries the transliterated attachment content, the
`Content-Disposition` filename, and the forced 7bit
`Content-Transfer-Encoding` appended after the encoder's inferred
base64 header (`add_header` appends). -/
def build_email_message (email_user : List Char) (dto? : Option EmailMessageDto) :
    Except (List Char) MimeMultipartMsg :=
  match dto? with
  | none => Except.error "None email_message_dto received!".data
  | some dto =>
    match dto.attachment with
    | none => Except.error "None file attachment received!".data
    | some (att_filename, att_content) =>
      let file := unidecode att_content
      Except.ok
        { headers :=
            [("From".data, email_user),
             ("To".data, dto.receiver),
             ("Subject".data, dto.subject),
             ("name".data, dto.subject)],
          parts :=
            [{ headers :=
                 [("Content-Type".data, "text/plain; charset=\"iso-8859-1\"".data),
                  ("MIME-Version".data, "1.0".data),
                  ("Content-Transfer-Encoding".data, "quoted-printable".data)],
               body := "\n\n".data },
             { headers :=
                 [("Content-Type".data, "application/octet-stream".data),
                  ("MIME-Version".data, "1.0".data),
                  ("Content-Transfer-Encoding".data, "base64".data),
                  ("Content-Disposition".data,
                    "attachment; filename=\"".data ++ att_filename ++ "\"".data),
                  ("Content-Transfer-Encoding".data, "7bit".data),
                  ("name".data, dto.subject)],
               body := file }] }

/-! ## Supporting lemmas -/

theorem digitChar_mem (d : Nat) : digitChar d ∈ "0123456789*".data := by
  rcases Nat.lt_or_ge d 10 with h | h
  · interval_cases d <;> decide
  · have hd : digitChar d = '*' := List.getD_eq_default _ _ (by simpa using h)
    rw [hd]; decide

theorem natToCharsAux_subset {fuel n : Nat} {ch : Char}
    (h : ch ∈ natToCharsAux fuel n) : ch ∈ "0123456789*".data := by
  induction fuel generalizing n with
  | zero => simp [natToCharsAux] at h
  | succ fuel ih =>
    cases n with
    | zero => simp [natToCharsAux] at h
    | succ m =>
      simp only [natToCharsAux, List.mem_append, List.mem_singleton] at h
      rcases h with h | h
      · exact ih h
      · rw [h]; exact digitChar_mem _

theorem natToChars_subset {n : Nat} {ch : Char}
    (h : ch ∈ natToChars n) : ch ∈ "0123456789*".data := by
  unfold natToChars at h
  split at h
  · simp only [List.mem_singleton] at h
    rw [h]; decide
  · exact natToCharsAux_subset h

theorem not_mem_natToChars {c : Char} (hc : c ∉ "0123456789*".data) (n : Nat) :
    c ∉ natToChars n := fun h => hc (natToChars_subset h)

/-! Membership facts about `List.splitOn` and `List.intercalate` used to
reason about the run-number stamping rewrites. -/

theorem splitOnP_parts_false {p : α → Bool} :
    ∀ {xs : List α}, ∀ l ∈ xs.splitOnP p, ∀ y ∈ l, ¬ p y := by
  intro xs
  induction xs with
  | nil =>
    intro l hl y hy
    simp only [List.splitOnP_nil, List.mem_singleton] at hl
    subst hl; simp at hy
  | cons x xs ih =>
    intro l hl y hy
    rw [List.splitOnP_cons] at hl
    by_cases hx : p x
    · rw [if_pos hx] at hl
      rcases List.mem_cons.mp hl with h | h
      · subst h; simp at hy
      · exact ih l h y hy
    · rw [if_neg hx] at hl
      cases hsp : xs.splitOnP p with
      | nil => exact absurd hsp (List.splitOnP_ne_nil p xs)
      | cons hd tl =>
        rw [hsp] at hl
        simp only [List.modifyHead, List.mem_cons] at hl
        rcases hl with h | h
        · subst h
          rcases List.mem_cons.mp hy with h | h
          · subst h; simpa using hx
          · exact ih hd (hsp ▸ List.mem_cons_self hd tl) y h
        · exact ih l (hsp ▸ List.mem_cons_of_mem hd h) y hy

theorem splitOnP_parts_subset {p : α → Bool} :
    ∀ {xs : List α}, ∀ l ∈ xs.splitOnP p, ∀ y ∈ l, y ∈ xs := by
  intro xs
  induction xs with
  | nil =>
    intro l hl y hy
    simp only [List.splitOnP_nil, List.mem_singleton] at hl
    subst hl; simp at hy
  | cons x xs ih =>
    intro l hl y hy
    rw [List.splitOnP_cons] at hl
    by_cases hx : p x
    · rw [if_pos hx] at hl
      rcases List.mem_cons.mp hl with h | h
      · subst h; simp at hy
      · exact List.mem_cons_of_mem x (ih l h y hy)
    · rw [if_neg hx] at hl
      cases hsp : xs.splitOnP p with
      | nil => exact absurd hsp (List.splitOnP_ne_nil p xs)
      | cons hd tl =>
        rw [hsp] at hl
        simp only [List.modifyHead, List.mem_cons] at hl
        rcases hl with h | h
        · subst h
          rcases List.mem_cons.mp hy with h | h
          · rw [h]; exact List.mem_cons_self _ _
          · exact List.mem_cons_of_mem x (ih hd (hsp ▸ List.mem_cons_self hd tl) y h)
        · exact List.mem_cons_of_mem x (ih l (hsp ▸ List.mem_cons_of_mem hd h) y hy)

theorem mem_splitOn_not_mem [DecidableEq α] {xs : List α} {c : α} :
    ∀ l ∈ xs.splitOn c, c ∉ l := by
  intro l hl hc
  have := splitOnP_parts_false (p := (· == c)) l hl c hc
  simp at this

theorem mem_splitOn_subset [DecidableEq α] {xs : List α} {c : α} :
    ∀ l ∈ xs.splitOn c, ∀ y ∈ l, y ∈ xs :=
  fun l hl y hy => splitOnP_parts_subset (p := (· == c)) l hl y hy

theorem intercalate_cons_cons {c : α} (a b : List α) (t : List (List α)) :
    [c].intercalate (a :: b :: t) = a ++ c :: [c].intercalate (b :: t) := by
  simp [List.intercalate, List.intersperse]

theorem mem_intercalate_cases {c y : α} :
    ∀ {parts : List (List α)}, y ∈ [c].intercalate parts →
      y = c ∨ ∃ l ∈ parts, y ∈ l := by
  intro parts
  induction parts with
  | nil => intro h; simp [List.intercalate] at h
  | cons a t ih =>
    intro h
    cases t with
    | nil =>
      simp only [List.intercalate, List.intersperse, List.flatten] at h
      right; exact ⟨a, List.mem_singleton.mpr rfl, by simpa using h⟩
    | cons b t' =>
      rw [intercalate_cons_cons] at h
      rcases List.mem_append.mp h with h | h
      · right; exact ⟨a, List.mem_cons_self _ _, h⟩
      · rcases List.mem_cons.mp h with h | h
        · left; exact h
        · rcases ih h with h | ⟨l, hl, hy⟩
          · left; exact h
          · right; exact ⟨l, List.mem_cons_of_mem _ hl, hy⟩

theorem not_mem_intercalate {c y : α} {parts : List (List α)}
    (hy : y ≠ c) (h : ∀ l ∈ parts, y ∉ l) : y ∉ [c].intercalate parts := by
  intro hmem
  rcases mem_intercalate_cases hmem with heq | ⟨l, hl, hyl⟩
  · exact hy heq
  · exact h l hl hyl

theorem mem_set_cases {l : List α} {i : Nat} {v y : α}
    (h : y ∈ l.set i v) : y ∈ l ∨ y = v := by
  induction l generalizing i with
  | nil => simp at h
  | cons a t ih =>
    cases i with
    | zero =>
      rcases List.mem_cons.mp h with h | h
      · right; exact h
      · left; exact List.mem_cons_of_mem _ h
    | succ j =>
      rcases List.mem_cons.mp h with h | h
      · left; rw [h]; exact List.mem_cons_self _ _
      · rcases ih h with h | h
        · left; exact List.mem_cons_of_mem _ h
        · right; exact h

theorem splitOn_append_cons [DecidableEq α] {xs : List α} {c : α}
    (h : c ∉ xs) (as : List α) :
    (xs ++ c :: as).splitOn c = xs :: as.splitOn c := by
  unfold List.splitOn
  refine List.splitOnP_first _ _ ?_ c ?_ as
  · intro y hy hc
    have hyc : y = c := by simpa using hc
    exact h (hyc ▸ hy)
  · simp

theorem splitOn_eq_single [DecidableEq α] {xs : List α} {c : α} (h : c ∉ xs) :
    xs.splitOn c = [xs] := by
  unfold List.splitOn
  refine List.splitOnP_eq_single _ _ ?_
  intro y hy hc
  have hyc : y = c := by simpa using hc
  exact h (hyc ▸ hy)

/-! ## Claims about the run-number stamping codec -/

/-- C4: for every filename with at least five underscore-delimited
fields and every run number, `build_sent_filename` replaces exactly the
field at zero-based index 4 with the decimal run number, leaves every
other field byte-identical (the output splits back to the input's
fields with only index 4 replaced), and is idempotent when reapplied
with the same run number; with fewer than five fields the operation
fails. -/
theorem build_sent_filename_stamp_spec (filename : List Char) (n : Nat) :
    (5 ≤ (filename.splitOn '_').length →
      ∃ out, build_sent_filename filename n = some out ∧
        out.splitOn '_' = (filename.splitOn '_').set 4 (natToChars n) ∧
        build_sent_filename out n = some out) ∧
    ((filename.splitOn '_').length < 5 → build_sent_filename filename n = none) := by
  constructor
  · intro h5
    have hne : (filename.splitOn '_').set 4 (natToChars n) ≠ [] := by
      intro hnil
      have hlen := congrArg List.length hnil
      rw [List.length_set, List.length_nil] at hlen
      omega
    have hnomem : ∀ l ∈ (filename.splitOn '_').set 4 (natToChars n), '_' ∉ l := by
      intro l hl
      rcases mem_set_cases hl with hmem | heq
      · exact mem_splitOn_not_mem l hmem
      · rw [heq]; exact not_mem_natToChars (by decide) n
    have hrt := List.splitOn_intercalate _ '_' hnomem hne
    have hout : build_sent_filename filename n =
        some (['_'].intercalate ((filename.splitOn '_').set 4 (natToChars n))) := by
      simp only [build_sent_filename]
      rw [if_pos h5]
    refine ⟨_, hout, hrt, ?_⟩
    simp only [build_sent_filename]
    rw [hrt, List.length_set, if_pos h5, List.set_set]
  · intro h5
    simp only [build_sent_filename]
    rw [if_neg (by omega)]

/-- C3 (amended with the totality precondition the code requires): for
every content string whose split at the first newline is nonempty on
both sides and whose first line has at least seven backslash-delimited
fields, `build_sent_file_data` succeeds, the output's lines are the
stamped first line followed by exactly the input's remaining lines, and
the stamped first line splits back to the input's fields with only
index 6 replaced by the decimal run number. -/
theorem build_sent_file_data_stamp_spec (file_data : List Char) (n : Nat)
    (line1 : List Char) (rest : List (List Char))
    (hsplit : file_data.splitOn '\n' = line1 :: rest)
    (hrest : rest ≠ [])
    (h7 : 7 ≤ (line1.splitOn '\\').length) :
    ∃ out, build_sent_file_data file_data n = some out ∧
      out.splitOn '\n' =
        ['\\'].intercalate ((line1.splitOn '\\').set 6 (natToChars n)) :: rest ∧
      (['\\'].intercalate ((line1.splitOn '\\').set 6 (natToChars n))).splitOn '\\' =
        (line1.splitOn '\\').set 6 (natToChars n) := by
  have hline1mem : line1 ∈ file_data.splitOn '\n' := by
    rw [hsplit]; exact List.mem_cons_self _ _
  have hnl_line1 : '\n' ∉ line1 := mem_splitOn_not_mem line1 hline1mem
  have hsetne : (line1.splitOn '\\').set 6 (natToChars n) ≠ [] := by
    intro hnil
    have hlen := congrArg List.length hnil
    rw [List.length_set, List.length_nil] at hlen
    omega
  have hbsfree : ∀ l ∈ (line1.splitOn '\\').set 6 (natToChars n), '\\' ∉ l := by
    intro l hl
    rcases mem_set_cases hl with hmem | heq
    · exact mem_splitOn_not_mem l hmem
    · rw [heq]; exact not_mem_natToChars (by decide) n
  have hrt_bs := List.splitOn_intercalate _ '\\' hbsfree hsetne
  have hnlfree : '\n' ∉ ['\\'].intercalate ((line1.splitOn '\\').set 6 (natToChars n)) := by
    apply not_mem_intercalate (by decide)
    intro l hl
    rcases mem_set_cases hl with hmem | heq
    · intro hmem2
      exact hnl_line1 (mem_splitOn_subset l hmem _ hmem2)
    · rw [heq]; exact not_mem_natToChars (by decide) n
  have hrestfree : ∀ l ∈ rest, '\n' ∉ l := by
    intro l hl
    exact mem_splitOn_not_mem l (by rw [hsplit]; exact List.mem_cons_of_mem _ hl)
  have hrt_rest := List.splitOn_intercalate _ '\n' hrestfree hrest
  cases rest with
  | nil => exact absurd rfl hrest
  | cons r rs =>
    have hout : build_sent_file_data file_data n =
        some (['\\'].intercalate ((line1.splitOn '\\').set 6 (natToChars n)) ++
          '\n' :: ['\n'].intercalate (r :: rs)) := by
      simp only [build_sent_file_data, hsplit]
      rw [if_pos h7]
    refine ⟨_, hout, ?_, hrt_bs⟩
    rw [splitOn_append_cons hnlfree, hrt_rest]

/-- Witness for C3's theorem at a concrete stamping input. -/
theorem build_sent_file_data_stamp_spec_witness :
    ∃ out, build_sent_file_data "h0\\h1\\h2\\h3\\h4\\h5\\h6\nBODY".data 42 = some out ∧
      out.splitOn '\n' =
        ['\\'].intercalate ((("h0\\h1\\h2\\h3\\h4\\h5\\h6".data).splitOn '\\').set 6
          (natToChars 42)) :: ["BODY".data] ∧
      (['\\'].intercalate ((("h0\\h1\\h2\\h3\\h4\\h5\\h6".data).splitOn '\\').set 6
          (natToChars 42))).splitOn '\\' =
        (("h0\\h1\\h2\\h3\\h4\\h5\\h6".data).splitOn '\\').set 6 (natToChars 42) :=
  build_sent_file_data_stamp_spec _ 42 _ _ (by decide) (by decide) (by decide)

/-- Counterexample to C3 as stated: a single-line content whose first
line has seven backslash-delimited fields, on which the operation
nevertheless fails (Python raises `IndexError` re-joining), because the
claim's hypotheses do not require a newline. -/
theorem build_sent_file_data_single_line_cex :
    7 ≤ (("p0\\p1\\p2\\p3\\p4\\p5\\p6".data).splitOn '\\').length ∧
    build_sent_file_data "p0\\p1\\p2\\p3\\p4\\p5\\p6".data 9 = none := by decide

/-- C9: `build_sent_file_data` is defined only for content containing a
newline; on any newline-free input it fails even when the first (only)
line has at least seven backslash-delimited fields. -/
theorem build_sent_file_data_requires_newline (file_data : List Char) (n : Nat)
    (hnl : '\n' ∉ file_data) (h7 : 7 ≤ (file_data.splitOn '\\').length) :
    build_sent_file_data file_data n = none := by
  have hs : file_data.splitOn '\n' = [file_data] := splitOn_eq_single hnl
  simp only [build_sent_file_data, hs]
  rw [if_pos h7]

/-- Witness for C9's theorem at a concrete newline-free input. -/
theorem build_sent_file_data_requires_newline_witness :
    '\n' ∉ "a\\b\\c\\d\\e\\f\\g".data ∧
    7 ≤ (("a\\b\\c\\d\\e\\f\\g".data).splitOn '\\').length ∧
    build_sent_file_data "a\\b\\c\\d\\e\\f\\g".data 3 = none :=
  ⟨by decide, by decide, build_sent_file_data_requires_newline _ 3 (by decide) (by decide)⟩

/-- C7: a new batch's hmrc run number is one greater than the last
stored one (1 when none exists), and the spec's filename scenario: run
number 7 at 2024-01-01T10:30 gives a filename ending in
`_7_202401011030`, and restamping that filename with run number 8 gives
the same filename with only that field changed, ending in
`_8_202401011030`. -/
theorem licence_data_run_number_scenario :
    (∀ (history : List Nat) (r : Nat), history.getLast? = some r →
      next_hmrc_run_number history = r + 1) ∧
    next_hmrc_run_number [] = 1 ∧
    build_licence_data_file_name 7 ⟨2024, 1, 1, 10, 30⟩ =
      "CHIEF_LIVE_SPIRE_licenceData_7_202401011030".data ∧
    List.isSuffixOf "_7_202401011030".data
      (build_licence_data_file_name 7 ⟨2024, 1, 1, 10, 30⟩) = true ∧
    build_sent_filename (build_licence_data_file_name 7 ⟨2024, 1, 1, 10, 30⟩) 8 =
      some "CHIEF_LIVE_SPIRE_licenceData_8_202401011030".data ∧
    List.isSuffixOf "_8_202401011030".data
      "CHIEF_LIVE_SPIRE_licenceData_8_202401011030".data = true := by
  refine ⟨?_, by decide, by decide, by decide, by decide, by decide⟩
  intro history r h
  unfold next_hmrc_run_number
  rw [h]

/-! ## Claims about the licence-update task and the scheduler -/

/-- C1: when at least one `Mail` record exists whose status is not
`REPLY_SENT`, `send_licence_data_to_hmrc` returns with the state
entirely unchanged — no `Mail` or `LicenceData` row is created and no
`LicencePayload` is marked processed. -/
theorem send_licence_data_to_hmrc_single_flight
    (edifact : List LicencePayloadRec → Nat → List Char)
    (now : FileTimestamp) (s : HmrcState)
    (h : ∃ m ∈ s.mails, m.status ≠ ReceptionStatus.reply_sent) :
    send_licence_data_to_hmrc edifact now s = s := by
  rcases h with ⟨m, hm, hst⟩
  have hmem : m.mail_id ∈ _get_pending_mail s := by
    unfold _get_pending_mail
    exact List.mem_map_of_mem _ (List.mem_filter.mpr ⟨hm, by simpa using hst⟩)
  have hne : _get_pending_mail s ≠ [] := List.ne_nil_of_mem hmem
  have hfree : _is_email_slot_free s = false := by
    unfold _is_email_slot_free
    cases hl : _get_pending_mail s with
    | nil => exact absurd hl hne
    | cons a t => rfl
  unfold send_licence_data_to_hmrc
  rw [hfree]
  rfl

/-- Witness for C1's theorem: the guard fires on a state holding one
batch still awaiting its reply. -/
theorem send_licence_data_to_hmrc_single_flight_witness :
    send_licence_data_to_hmrc (fun _ _ => []) ⟨2024, 1, 1, 10, 30⟩
      ⟨[⟨0, ReceptionStatus.reply_pending, ExtractType.licence_data, [], [], none, none⟩],
        [], [⟨"GBSIEL/2024/1".data, false, false⟩]⟩ =
      ⟨[⟨0, ReceptionStatus.reply_pending, ExtractType.licence_data, [], [], none, none⟩],
        [], [⟨"GBSIEL/2024/1".data, false, false⟩]⟩ :=
  send_licence_data_to_hmrc_single_flight _ _ _
    ⟨_, List.mem_singleton.mpr rfl, by decide⟩

/-- C5: when the failure handler finds the task row and its current
attempt has reached the configured maximum, a new task instance with a
fresh attempt counter is enqueued with the fixed 3600-second backoff;
and the scheduling entry point enqueues nothing while a task with this
usage-data id's parameters is already pending. -/
theorem usage_task_retry_and_dedup (max_attempts : Nat) (tasks : List TaskRec)
    (uid : List Char) :
    (∀ task, tasks.find? (fun t =>
        decide (t.queue = USAGE_FIGURES_QUEUE ∧ t.params = task_params_for uid)) =
          some task →
      max_attempts ≤ task.attempts + 1 →
      _handle_exception max_attempts tasks uid =
        tasks ++ [⟨USAGE_FIGURES_QUEUE, task_params_for uid, 0, TASK_BACK_OFF⟩]) ∧
    TASK_BACK_OFF = 3600 ∧
    ((∃ t ∈ tasks, t.queue = USAGE_FIGURES_QUEUE ∧ t.params = task_params_for uid) →
      schedule_licence_usage_figures_for_lite_api tasks uid = tasks) := by
  refine ⟨?_, rfl, ?_⟩
  · intro task hfind hmax
    unfold _handle_exception
    rw [hfind]
    simp only [if_pos hmax]
    rfl
  · intro hex
    unfold schedule_licence_usage_figures_for_lite_api
    rw [if_pos hex]

/-- C10: `save_response` always records the accepted and rejected
licence lists, the sent timestamp and the upstream response on the
usage-data record, and touches the associated mail exactly when the
batch has no SPIRE data — in which case only its status changes, to
`REPLY_RECEIVED`. -/
theorem save_response_frame (ud : UsageDataRec) (accepted rejected : List (List Char))
    (response : List Char) (now : Nat) :
    (save_response ud accepted rejected response now).lite_accepted_licences = accepted ∧
    (save_response ud accepted rejected response now).lite_rejected_licences = rejected ∧
    (save_response ud accepted rejected response now).lite_sent_at = some now ∧
    (save_response ud accepted rejected response now).lite_response = some response ∧
    (save_response ud accepted rejected response now).has_spire_data = ud.has_spire_data ∧
    (ud.has_spire_data = true →
      (save_response ud accepted rejected response now).mail = ud.mail) ∧
    (ud.has_spire_data = false →
      (save_response ud accepted rejected response now).mail =
        { ud.mail with status := ReceptionStatus.reply_received }) := by
  unfold save_response
  by_cases h : ud.has_spire_data
  · simp [h]
  · simp [h]

/-! ## Claims about the inbound acceptance filter -/

/-- C6: when no raw header line equals the configured trusted sender
address, `get_message_id` returns no identifier immediately (whatever a
later `Message-ID` scan would have done), and conversely any call that
does assign an identifier saw the trusted sender among the header
lines. -/
theorem get_message_id_trusted_sender_only (spire_from_address listing_msg : List Char)
    (header_lines : List (List Char)) :
    (∀ msg_num, (pythonWhitespaceSplit listing_msg).head? = some msg_num →
      spire_from_address ∉ header_lines →
      get_message_id spire_from_address listing_msg header_lines = some (none, msg_num)) ∧
    (∀ mid msg_num,
      get_message_id spire_from_address listing_msg header_lines = some (some mid, msg_num) →
      spire_from_address ∈ header_lines) := by
  constructor
  · intro msg_num hhead hnot
    unfold get_message_id
    simp only [hhead]
    rw [if_pos hnot]
  · intro mid msg_num h
    unfold get_message_id at h
    cases hhead : (pythonWhitespaceSplit listing_msg).head? with
    | none => rw [hhead] at h; exact absurd h (by simp)
    | some num =>
      simp only [hhead] at h
      by_cases hmem : spire_from_address ∈ header_lines
      · exact hmem
      · rw [if_pos hmem] at h
        simp at h

/-- Witness for C6's theorem: an untrusted header block is rejected
without an identifier, and the trusted-line direction at a concrete
accepted call. -/
theorem get_message_id_trusted_sender_only_witness :
    get_message_id "spire@example.com".data "2 5353".data
      ["From: someone-else@example.com".data,
       "Message-ID: <abc123@mail.example.com>".data] = some (none, "2".data) :=
  (get_message_id_trusted_sender_only _ _ _).1 _ (by decide) (by decide)

/-! ## Claims about the outbound message assembler -/

/-- C8 (amended: the spec scenario's input `30 𝗄𝗆/𝗑 北京` transliterates
to `30 km/x Bei Jing ` — the sans-serif `𝗑` maps to `x` and the CJK
images carry a trailing space): `build_email_message` fails with a
validation error when the DTO or its attachment is absent; otherwise it
produces a two-part message whose `From` header is the fixed outbound
identity regardless of the DTO's sender field, whose attachment part's
body is the ASCII transliteration of the input content, and whose
attachment part carries the `Content-Disposition` filename and a forced
7bit `Content-Transfer-Encoding`. -/
theorem build_email_message_spec (email_user : List Char) (dto : EmailMessageDto) :
    build_email_message email_user none =
      Except.error "None email_message_dto received!".data ∧
    (dto.attachment = none →
      build_email_message email_user (some dto) =
        Except.error "None file attachment received!".data) ∧
    (∀ att_filename att_content, dto.attachment = some (att_filename, att_content) →
      ∃ msg, build_email_message email_user (some dto) = Except.ok msg ∧
        ("From".data, email_user) ∈ msg.headers ∧
        msg.parts.length = 2 ∧
        ∃ attPart, msg.parts.getLast? = some attPart ∧
          attPart.body = unidecode att_content ∧
          ("Content-Disposition".data,
            "attachment; filename=\"".data ++ att_filename ++ "\"".data) ∈ attPart.headers ∧
          ("Content-Transfer-Encoding".data, "7bit".data) ∈ attPart.headers) ∧
    (∀ snd, build_email_message email_user (some { dto with sender := snd }) =
      build_email_message email_user (some dto)) ∧
    unidecode "30 𝗄𝗆/𝗑 北京".data = "30 km/x Bei Jing ".data := by
  refine ⟨rfl, ?_, ?_, ?_, by decide⟩
  · intro hatt
    unfold build_email_message
    simp only [hatt]
  · intro att_filename att_content hatt
    unfold build_email_message
    simp only [hatt]
    exact ⟨_, rfl, by simp, rfl, _, rfl, rfl, by simp, by simp⟩
  · intro snd
    unfold build_email_message
    cases hatt : dto.attachment with
    | none => simp only [hatt]
    | some pair => simp only [hatt]

/-- Counterexample to C8 as stated: at the claim's exact example input
the attachment body the assembler produces is `30 km/x Bei Jing `, not
the claimed `30 km/h Bei Jing`. -/
theorem build_email_message_example_cex :
    ∃ msg, build_email_message "user@example.com".data
        (some ⟨1, "sender@example.com".data, "receiver@example.com".data, [],
          none, "Some subject".data,
          some ("some filename".data, "30 𝗄𝗆/𝗑 北京".data), []⟩) = Except.ok msg ∧
      ∃ attPart, msg.parts.getLast? = some attPart ∧
        attPart.body = "30 km/x Bei Jing ".data ∧
        attPart.body ≠ "30 km/h Bei Jing".data := by
  refine ⟨_, rfl, _, rfl, ?_, ?_⟩ <;> decide

/-! ## Claims about the deduplication ledger -/

theorem mem_get_read_messages_iff (ledger : List MailReadStatusRow) (mid : List Char) :
    mid ∈ get_read_messages ledger ↔
      ∃ r ∈ ledger, r.message_id = mid ∧
        (r.status = MailReadStatus.read ∨ r.status = MailReadStatus.unprocessable) := by
  unfold get_read_messages
  simp only [List.mem_map, List.mem_filter, decide_eq_true_eq]
  constructor
  · rintro ⟨r, ⟨hr, hst⟩, hid⟩
    exact ⟨r, hr, hid, hst⟩
  · rintro ⟨r, hr, hid, hst⟩
    exact ⟨r, ⟨hr, hst⟩, hid⟩

theorem rows_for_append (mid : List Char) (l1 l2 : List MailReadStatusRow) :
    rows_for mid (l1 ++ l2) = rows_for mid l1 ++ rows_for mid l2 := by
  simp [rows_for, List.filter_append]

theorem mem_rows_for_iff {mid : List Char} {l : List MailReadStatusRow}
    {r : MailReadStatusRow} :
    r ∈ rows_for mid l ↔ r ∈ l ∧ r.message_id = mid := by
  simp [rows_for, List.mem_filter]

theorem set_row_status_rows_for_ne {l : List MailReadStatusRow} {tid mid num : List Char}
    {st : MailReadStatus} (h : tid ≠ mid) :
    rows_for mid (set_row_status l tid num st) = rows_for mid l := by
  induction l with
  | nil => rfl
  | cons r rs ih =>
    simp only [set_row_status]
    by_cases hg : r.message_id = tid ∧ r.message_num = num
    · rw [if_pos hg]
      have hne : r.message_id ≠ mid := by rw [hg.1]; exact h
      simp [rows_for, List.filter_cons, hne]
    · rw [if_neg hg]
      simp only [rows_for, List.filter_cons] at ih ⊢
      rw [ih]

theorem set_row_status_mem_preserve {l : List MailReadStatusRow} {tid num : List Char}
    {st : MailReadStatus} {r : MailReadStatusRow}
    (hr : r ∈ l) (hne : r.message_id ≠ tid) :
    r ∈ set_row_status l tid num st := by
  induction l with
  | nil => simp at hr
  | cons a rs ih =>
    simp only [set_row_status]
    rcases List.mem_cons.mp hr with h | h
    · subst h
      rw [if_neg (fun hg => hne hg.1)]
      exact List.mem_cons_self _ _
    · by_cases hg : a.message_id = tid ∧ a.message_num = num
      · rw [if_pos hg]; exact List.mem_cons_of_mem _ h
      · rw [if_neg hg]; exact List.mem_cons_of_mem _ (ih h)

theorem set_row_status_exists {l : List MailReadStatusRow} {mid num : List Char}
    (st : MailReadStatus)
    (h : ∃ r ∈ l, r.message_id = mid ∧ r.message_num = num) :
    ∃ r ∈ set_row_status l mid num st, r.message_id = mid ∧ r.status = st := by
  induction l with
  | nil => simp at h
  | cons a rs ih =>
    simp only [set_row_status]
    by_cases hg : a.message_id = mid ∧ a.message_num = num
    · refine ⟨{ a with status := st }, ?_, hg.1, rfl⟩
      rw [if_pos hg]
      exact List.mem_cons_self _ _
    · rcases h with ⟨r, hr, hrid, hrnum⟩
      rcases List.mem_cons.mp hr with heq | hmem
      · exact absurd ⟨heq ▸ hrid, heq ▸ hrnum⟩ hg
      · rcases ih ⟨r, hmem, hrid, hrnum⟩ with ⟨rr, hrr, hid2, hst2⟩
        refine ⟨rr, ?_, hid2, hst2⟩
        rw [if_neg hg]
        exact List.mem_cons_of_mem _ hrr

theorem get_or_create_exists (l : List MailReadStatusRow) (mid num : List Char) :
    ∃ r ∈ (if (find_row l mid num).isSome then l
           else l ++ [⟨mid, num, MailReadStatus.unread⟩]),
      r.message_id = mid ∧ r.message_num = num := by
  by_cases hf : (find_row l mid num).isSome
  · rw [if_pos hf]
    rcases Option.isSome_iff_exists.mp hf with ⟨r, hr⟩
    unfold find_row at hr
    have hmem := List.mem_of_find?_eq_some hr
    have hpred := List.find?_some hr
    simp only [decide_eq_true_eq] at hpred
    exact ⟨r, hmem, hpred⟩
  · rw [if_neg hf]
    exact ⟨⟨mid, num, MailReadStatus.unread⟩,
      List.mem_append_right _ (List.mem_singleton.mpr rfl), rfl, rfl⟩

theorem process_message_rows_for_frame
    (consume : EmailMessageDto → Option MailReadStatus)
    (read_msgs : List (List Char)) (ledger : List MailReadStatusRow)
    (msg : PopListingEntry) (mid : List Char)
    (h : msg.message_id = some mid → mid ∈ read_msgs) :
    rows_for mid (process_message consume read_msgs ledger msg).1 = rows_for mid ledger := by
  obtain ⟨mi, num, fetch⟩ := msg
  cases mi with
  | none => rfl
  | some m =>
    simp only [process_message]
    by_cases hmem : m ∈ read_msgs
    · rw [if_pos hmem]
    · rw [if_neg hmem]
      have hm : m ≠ mid := by
        intro he
        exact hmem (he ▸ h (by rw [he]))
      have hrows1 : rows_for mid (if (find_row ledger m num).isSome then ledger
          else ledger ++ [⟨m, num, MailReadStatus.unread⟩]) = rows_for mid ledger := by
        by_cases hf : (find_row ledger m num).isSome
        · rw [if_pos hf]
        · rw [if_neg hf, rows_for_append]
          have hz : rows_for mid [(⟨m, num, MailReadStatus.unread⟩ : MailReadStatusRow)] = [] := by
            simp [rows_for, hm]
          rw [hz, List.append_nil]
      cases fetch with
      | transportError => exact hrows1
      | parseFailure => rw [set_row_status_rows_for_ne hm]; exact hrows1
      | parsed dto =>
        cases hc : consume dto with
        | some st =>
          simp only [hc]
          rw [set_row_status_rows_for_ne hm]
          exact hrows1
        | none =>
          simp only [hc]
          exact hrows1

theorem process_message_yield
    (consume : EmailMessageDto → Option MailReadStatus)
    (read_msgs : List (List Char)) (ledger : List MailReadStatusRow)
    (msg : PopListingEntry) (y : List Char)
    (h : (process_message consume read_msgs ledger msg).2 = some y) :
    msg.message_id = some y ∧ y ∉ read_msgs ∧
      ∃ dto, msg.fetch = FetchOutcome.parsed dto := by
  obtain ⟨mi, num, fetch⟩ := msg
  cases mi with
  | none => simp [process_message] at h
  | some m =>
    simp only [process_message] at h
    by_cases hmem : m ∈ read_msgs
    · rw [if_pos hmem] at h; simp at h
    · rw [if_neg hmem] at h
      cases fetch with
      | transportError => simp at h
      | parseFailure => simp at h
      | parsed dto =>
        cases hc : consume dto with
        | some st =>
          simp only [hc] at h
          simp only [Option.some.injEq] at h
          subst h
          exact ⟨rfl, hmem, dto, rfl⟩
        | none =>
          simp only [hc] at h
          simp only [Option.some.injEq] at h
          subst h
          exact ⟨rfl, hmem, dto, rfl⟩

theorem process_message_preserves_unfinalized
    (consume : EmailMessageDto → Option MailReadStatus)
    (read_msgs : List (List Char)) (ledger : List MailReadStatusRow)
    (msg : PopListingEntry) (mid : List Char)
    (hfetch : msg.message_id = some mid → msg.fetch = FetchOutcome.transportError)
    (hnf : mid ∉ get_read_messages ledger) :
    mid ∉ get_read_messages (process_message consume read_msgs ledger msg).1 := by
  obtain ⟨mi, num, fetch⟩ := msg
  cases mi with
  | none => simpa [process_message] using hnf
  | some m =>
    by_cases hm : m = mid
    · subst hm
      have hfe : fetch = FetchOutcome.transportError := hfetch rfl
      subst hfe
      simp only [process_message]
      by_cases hmem : m ∈ read_msgs
      · rw [if_pos hmem]; exact hnf
      · rw [if_neg hmem]
        by_cases hf : (find_row ledger m num).isSome
        · rw [if_pos hf]; exact hnf
        · rw [if_neg hf]
          intro hmem2
          rw [mem_get_read_messages_iff] at hmem2
          obtain ⟨r, hr, hid, hst⟩ := hmem2
          rcases List.mem_append.mp hr with hin | hone
          · exact hnf ((mem_get_read_messages_iff ledger m).mpr ⟨r, hin, hid, hst⟩)
          · rw [List.mem_singleton.mp hone] at hst
            rcases hst with hst | hst <;> exact MailReadStatus.noConfusion hst
    · have hframe := process_message_rows_for_frame consume read_msgs ledger
        ⟨some m, num, fetch⟩ mid (fun he => absurd (Option.some.injEq m mid ▸ he) hm)
      intro hmem2
      apply hnf
      rw [mem_get_read_messages_iff] at hmem2 ⊢
      obtain ⟨r, hr, hid, hst⟩ := hmem2
      have hmemrows : r ∈ rows_for mid
          (process_message consume read_msgs ledger ⟨some m, num, fetch⟩).1 :=
        mem_rows_for_iff.mpr ⟨hr, hid⟩
      rw [hframe] at hmemrows
      exact ⟨r, (mem_rows_for_iff.mp hmemrows).1, hid, hst⟩

theorem process_message_parse_marks
    (consume : EmailMessageDto → Option MailReadStatus)
    (read_msgs : List (List Char)) (ledger : List MailReadStatusRow)
    (mid num : List Char) (hmem : mid ∉ read_msgs) :
    ∃ r ∈ (process_message consume read_msgs ledger
        ⟨some mid, num, FetchOutcome.parseFailure⟩).1,
      r.message_id = mid ∧ r.status = MailReadStatus.unprocessable := by
  simp only [process_message]
  rw [if_neg hmem]
  exact set_row_status_exists _ (get_or_create_exists ledger mid num)

theorem process_message_preserves_unproc
    (consume : EmailMessageDto → Option MailReadStatus)
    (read_msgs : List (List Char)) (ledger : List MailReadStatusRow)
    (msg : PopListingEntry) (mid : List Char)
    (hfetch : msg.message_id = some mid → msg.fetch = FetchOutcome.parseFailure)
    (hQ : ∃ r ∈ ledger, r.message_id = mid ∧ r.status = MailReadStatus.unprocessable) :
    ∃ r ∈ (process_message consume read_msgs ledger msg).1,
      r.message_id = mid ∧ r.status = MailReadStatus.unprocessable := by
  obtain ⟨mi, num, fetch⟩ := msg
  cases mi with
  | none => simpa [process_message] using hQ
  | some m =>
    by_cases hmem : m ∈ read_msgs
    · simpa [process_message, hmem] using hQ
    · by_cases hm : m = mid
      · subst hm
        have hfe : fetch = FetchOutcome.parseFailure := hfetch rfl
        subst hfe
        exact process_message_parse_marks consume read_msgs ledger m num hmem
      · obtain ⟨r, hr, hid, hst⟩ := hQ
        have hrne : r.message_id ≠ m := by rw [hid]; exact fun he => hm he.symm
        simp only [process_message]
        rw [if_neg hmem]
        have hr1 : r ∈ (if (find_row ledger m num).isSome then ledger
            else ledger ++ [⟨m, num, MailReadStatus.unread⟩]) := by
          by_cases hf : (find_row ledger m num).isSome
          · rwa [if_pos hf]
          · rw [if_neg hf]; exact List.mem_append_left _ hr
        cases fetch with
        | transportError => exact ⟨r, hr1, hid, hst⟩
        | parseFailure => exact ⟨r, set_row_status_mem_preserve hr1 hrne, hid, hst⟩
        | parsed dto =>
          cases hc : consume dto with
          | some st =>
            simp only [hc]
            exact ⟨r, set_row_status_mem_preserve hr1 hrne, hid, hst⟩
          | none =>
            simp only [hc]
            exact ⟨r, hr1, hid, hst⟩

theorem iterate_messages_no_yield
    (consume : EmailMessageDto → Option MailReadStatus)
    (rm : List (List Char)) (msgs : List PopListingEntry)
    (acc : List MailReadStatusRow × List (List Char)) (mid : List Char)
    (hmem : mid ∈ rm) (hacc : mid ∉ acc.2) :
    mid ∉ (iterate_messages consume rm acc msgs).2 := by
  induction msgs generalizing acc with
  | nil => simpa [iterate_messages] using hacc
  | cons msg msgs ih =>
    simp only [iterate_messages]
    apply ih
    intro hmem2
    rcases List.mem_append.mp hmem2 with h | h
    · exact hacc h
    · cases hy : (process_message consume rm acc.1 msg).2 with
      | none => rw [hy] at h; simp at h
      | some y =>
        rw [hy] at h
        simp only [Option.toList, List.mem_singleton] at h
        have hyl := process_message_yield consume rm acc.1 msg y hy
        exact hyl.2.1 (h ▸ hmem)

theorem iterate_messages_no_yield_unless_parsed
    (consume : EmailMessageDto → Option MailReadStatus)
    (rm : List (List Char)) (msgs : List PopListingEntry)
    (acc : List MailReadStatusRow × List (List Char)) (mid : List Char)
    (hnp : ∀ m ∈ msgs, m.message_id = some mid →
      ∀ dto, m.fetch ≠ FetchOutcome.parsed dto)
    (hacc : mid ∉ acc.2) :
    mid ∉ (iterate_messages consume rm acc msgs).2 := by
  induction msgs generalizing acc with
  | nil => simpa [iterate_messages] using hacc
  | cons msg msgs ih =>
    simp only [iterate_messages]
    refine ih _ (fun m hm => hnp m (List.mem_cons_of_mem _ hm)) ?_
    intro hmem2
    rcases List.mem_append.mp hmem2 with h | h
    · exact hacc h
    · cases hy : (process_message consume rm acc.1 msg).2 with
      | none => rw [hy] at h; simp at h
      | some y =>
        rw [hy] at h
        simp only [Option.toList, List.mem_singleton] at h
        have hyl := process_message_yield consume rm acc.1 msg y hy
        rcases hyl.2.2 with ⟨dto, hdto⟩
        exact hnp msg (List.mem_cons_self _ _) (h ▸ hyl.1) dto hdto

theorem iterate_messages_rows_frame
    (consume : EmailMessageDto → Option MailReadStatus)
    (rm : List (List Char)) (msgs : List PopListingEntry)
    (acc : List MailReadStatusRow × List (List Char)) (mid : List Char)
    (hmem : mid ∈ rm) :
    rows_for mid (iterate_messages consume rm acc msgs).1 = rows_for mid acc.1 := by
  induction msgs generalizing acc with
  | nil => rfl
  | cons msg msgs ih =>
    simp only [iterate_messages]
    rw [ih]
    exact process_message_rows_for_frame consume rm acc.1 msg mid (fun _ => hmem)

theorem iterate_messages_unfinalized
    (consume : EmailMessageDto → Option MailReadStatus)
    (rm : List (List Char)) (msgs : List PopListingEntry)
    (acc : List MailReadStatusRow × List (List Char)) (mid : List Char)
    (hfetch : ∀ m ∈ msgs, m.message_id = some mid → m.fetch = FetchOutcome.transportError)
    (hnf : mid ∉ get_read_messages acc.1) :
    mid ∉ get_read_messages (iterate_messages consume rm acc msgs).1 := by
  induction msgs generalizing acc with
  | nil => simpa [iterate_messages] using hnf
  | cons msg msgs ih =>
    simp only [iterate_messages]
    exact ih _ (fun m hm => hfetch m (List.mem_cons_of_mem _ hm))
      (process_message_preserves_unfinalized consume rm acc.1 msg mid
        (fun h => hfetch msg (List.mem_cons_self _ _) h) hnf)

theorem iterate_messages_preserves_unproc
    (consume : EmailMessageDto → Option MailReadStatus)
    (rm : List (List Char)) (msgs : List PopListingEntry)
    (acc : List MailReadStatusRow × List (List Char)) (mid : List Char)
    (hfetch : ∀ m ∈ msgs, m.message_id = some mid → m.fetch = FetchOutcome.parseFailure)
    (hQ : ∃ r ∈ acc.1, r.message_id = mid ∧ r.status = MailReadStatus.unprocessable) :
    ∃ r ∈ (iterate_messages consume rm acc msgs).1,
      r.message_id = mid ∧ r.status = MailReadStatus.unprocessable := by
  induction msgs generalizing acc with
  | nil => simpa [iterate_messages] using hQ
  | cons msg msgs ih =>
    simp only [iterate_messages]
    exact ih _ (fun m hm => hfetch m (List.mem_cons_of_mem _ hm))
      (process_message_preserves_unproc consume rm acc.1 msg mid
        (fun h => hfetch msg (List.mem_cons_self _ _) h) hQ)

theorem iterate_messages_establishes_unproc
    (consume : EmailMessageDto → Option MailReadStatus)
    (rm : List (List Char)) (msgs : List PopListingEntry)
    (acc : List MailReadStatusRow × List (List Char)) (mid : List Char)
    (hex : ∃ m ∈ msgs, m.message_id = some mid ∧ m.fetch = FetchOutcome.parseFailure)
    (hall : ∀ m ∈ msgs, m.message_id = some mid → m.fetch = FetchOutcome.parseFailure)
    (hmem : mid ∉ rm) :
    ∃ r ∈ (iterate_messages consume rm acc msgs).1,
      r.message_id = mid ∧ r.status = MailReadStatus.unprocessable := by
  induction msgs generalizing acc with
  | nil => simp at hex
  | cons msg msgs ih =>
    by_cases hmsg : msg.message_id = some mid
    · have hfe := hall msg (List.mem_cons_self _ _) hmsg
      simp only [iterate_messages]
      apply iterate_messages_preserves_unproc consume rm msgs _ mid
        (fun m hm => hall m (List.mem_cons_of_mem _ hm))
      obtain ⟨mi, num, fetch⟩ := msg
      simp only at hmsg hfe
      subst hmsg
      subst hfe
      exact process_message_parse_marks consume rm acc.1 mid num hmem
    · rcases hex with ⟨m, hm, hmid, hfp⟩
      rcases List.mem_cons.mp hm with he | he
      · exact absurd (he ▸ hmid) hmsg
      · simp only [iterate_messages]
        exact ih _ ⟨m, he, hmid, hfp⟩ (fun m' hm' => hall m' (List.mem_cons_of_mem _ hm'))

theorem single_parsed_yields
    (consume : EmailMessageDto → Option MailReadStatus)
    (l : List MailReadStatusRow) (mid num : List Char) (dto : EmailMessageDto)
    (h : mid ∉ get_read_messages l) :
    (get_message_iterator consume l [⟨some mid, num, FetchOutcome.parsed dto⟩]).2 = [mid] := by
  unfold get_message_iterator
  simp only [iterate_messages, process_message]
  rw [if_neg h]
  cases hc : consume dto <;> simp [hc]

/-- C2: over any sequence of polls of the same mailbox, an identifier
whose ledger row is already `READ` or `UNPROCESSABLE` is never yielded
again and its rows are never touched (so each identifier is finalized
at most once); an entry whose fetch fails on the transport is skipped
with no finalization — its identifier is still absent from the
exclusion snapshot of the next poll, which yields it once it parses —
while an entry whose parse fails is marked `UNPROCESSABLE` and no later
poll ever yields it again. -/
theorem get_message_iterator_dedup_ledger
    (consume : EmailMessageDto → Option MailReadStatus)
    (ledger : List MailReadStatusRow) (msgs : List PopListingEntry) (mid : List Char) :
    (mid ∈ get_read_messages ledger →
      mid ∉ (get_message_iterator consume ledger msgs).2 ∧
      rows_for mid (get_message_iterator consume ledger msgs).1 = rows_for mid ledger) ∧
    ((∀ m ∈ msgs, m.message_id = some mid → m.fetch = FetchOutcome.transportError) →
      mid ∉ get_read_messages ledger →
      mid ∉ (get_message_iterator consume ledger msgs).2 ∧
      mid ∉ get_read_messages (get_message_iterator consume ledger msgs).1 ∧
      ∀ (consume2 : EmailMessageDto → Option MailReadStatus) (num : List Char)
        (dto : EmailMessageDto),
        (get_message_iterator consume2 (get_message_iterator consume ledger msgs).1
          [⟨some mid, num, FetchOutcome.parsed dto⟩]).2 = [mid]) ∧
    ((∃ m ∈ msgs, m.message_id = some mid ∧ m.fetch = FetchOutcome.parseFailure) →
      (∀ m ∈ msgs, m.message_id = some mid → m.fetch = FetchOutcome.parseFailure) →
      mid ∉ get_read_messages ledger →
      (∃ r ∈ (get_message_iterator consume ledger msgs).1,
        r.message_id = mid ∧ r.status = MailReadStatus.unprocessable) ∧
      ∀ (consume2 : EmailMessageDto → Option MailReadStatus)
        (msgs2 : List PopListingEntry),
        mid ∉ (get_message_iterator consume2
          (get_message_iterator consume ledger msgs).1 msgs2).2) := by
  refine ⟨?_, ?_, ?_⟩
  · intro hmem
    exact ⟨iterate_messages_no_yield consume _ msgs (ledger, []) mid hmem (by simp),
      iterate_messages_rows_frame consume _ msgs (ledger, []) mid hmem⟩
  · intro hfetch hnf
    have hnf2 := iterate_messages_unfinalized consume (get_read_messages ledger)
      msgs (ledger, []) mid hfetch hnf
    refine ⟨?_, hnf2, ?_⟩
    · apply iterate_messages_no_yield_unless_parsed consume _ msgs (ledger, []) mid ?_ (by simp)
      intro m hm hid dto hfe
      rw [hfetch m hm hid] at hfe
      exact FetchOutcome.noConfusion hfe
    · intro consume2 num dto
      exact single_parsed_yields consume2 _ mid num dto hnf2
  · intro hex hall hnf
    have hQ := iterate_messages_establishes_unproc consume (get_read_messages ledger)
      msgs (ledger, []) mid hex hall hnf
    refine ⟨hQ, ?_⟩
    intro consume2 msgs2
    have hmem2 : mid ∈ get_read_messages (get_message_iterator consume ledger msgs).1 := by
      rw [mem_get_read_messages_iff]
      obtain ⟨r, hr, hid, hst⟩ := hQ
      exact ⟨r, hr, hid, Or.inr hst⟩
    exact iterate_messages_no_yield consume2 _ msgs2
      ((get_message_iterator consume ledger msgs).1, []) mid hmem2 (by simp)
